import Mathlib

/-!
A shallow embedding of the netlink message framing, attribute codec,
connection send/receive logic and reply validation of the mdlayher/netlink
library, together with proofs of the specification's testable properties.

Bytes are modelled as natural numbers (well-formed buffers hold values below
256); the Go `uint16`/`uint32` fields are natural numbers with explicit
`% 2^16` / `% 2^32` truncation where the code converts or overflows.  The
host's native endianness (the encoding used by the `nlenc` helpers) is
modelled as little-endian, which is the byte order of every platform the
library runs on; both directions of the codec use the same order, so every
statement below is independent of that choice.  Fallible Go functions
returning `error` are modelled with `Except NlError`.
-/

deriving instance DecidableEq for Except

namespace Netlink

/-- Modelled from the spec: `align4` rounds a length up to the next 4-byte
boundary.  The helper `nlmsgAlign` itself is not among the provided sources
(only its callers are); the spec fixes it as "Trailing bytes pad to
`align4(length)`". -/
def nlmsgAlign (n : Nat) : Nat := (n + 3) / 4 * 4

/-- Modelled from the spec: attribute payloads are "padded to align4"; the
attribute alignment helper rounds up to a 4-byte boundary exactly like
`nlmsgAlign`. -/
def nlaAlign (n : Nat) : Nat := (n + 3) / 4 * 4

/-- Modelled from the spec: the netlink header is a "fixed 16-byte layout". -/
def nlmsgHeaderLen : Nat := 16

/-- Modelled from the spec: the attribute header is 4 bytes ("`length` u16:
header (4) + data bytes"). -/
def nlaHeaderLen : Nat := 4

/-- Modelled from the spec: the total message length is the header length
plus the payload length ("`align4(16 + len(payload))`"). -/
def nlmsgLength (dataLen : Nat) : Nat := dataLen + nlmsgHeaderLen

/-- PutUint16 encodes a uint16 in the host's native byte order
(little-endian), as two bytes. -/
def PutUint16 (v : Nat) : List Nat := [v % 256, v / 256 % 256]

/-- PutUint32 encodes a uint32 in the host's native byte order
(little-endian), as four bytes. -/
def PutUint32 (v : Nat) : List Nat :=
  [v % 256, v / 256 % 256, v / 65536 % 256, v / 16777216 % 256]

/-- Uint16 decodes a uint16 from the first two bytes of a buffer. -/
def Uint16 (b : List Nat) : Nat := b.getD 0 0 + 256 * b.getD 1 0

/-- Uint32 decodes a uint32 from the first four bytes of a buffer. -/
def Uint32 (b : List Nat) : Nat :=
  b.getD 0 0 + 256 * b.getD 1 0 + 65536 * b.getD 2 0 + 16777216 * b.getD 3 0

/-- getInt32 decodes a signed 32-bit integer (two's complement) from the
first four bytes of a buffer. -/
def getInt32 (b : List Nat) : Int :=
  let u := Uint32 b
  if u < 2147483648 then (u : Int) else (u : Int) - 4294967296

/-- The error values produced by the embedded functions, one constructor per
distinct `errors.New` value (or kernel errno) in the source. -/
inductive NlError where
  | incorrectMessageLength
  | shortMessage
  | unalignedMessage
  | invalidAttribute
  | shortErrorMessage
  | dataTooLarge
  | mismatchedSequence
  | mismatchedPID
  | kernelError (errno : Int)
  | wouldBlock
deriving DecidableEq, Repr

/-- The errno carried by a kernel "no such file or directory" error. -/
def ENOENT : Int := 2

/-- HeaderFlagsMulti indicates a multi-part message (value 2). -/
def HeaderFlagsMulti : Nat := 2

/-- HeaderTypeError indicates an error code is present (value 0x2). -/
def HeaderTypeError : Nat := 2

/-- HeaderTypeDone indicates the end of a multi-part message (value 0x3). -/
def HeaderTypeDone : Nat := 3

/-- NLA_F_NESTED is bit 15 of an attribute's type field. -/
def NLA_F_NESTED : Nat := 32768

/-- NLA_F_NET_BYTEORDER is bit 14 of an attribute's type field. -/
def NLA_F_NET_BYTEORDER : Nat := 16384

/-- A netlink header: Length u32, Type u16, Flags u16, Sequence u32, PID u32.
The Go field `Type` is spelled `Type'` because `Type` is reserved in Lean. -/
structure Header where
  Length : Nat
  Type' : Nat
  Flags : Nat
  Sequence : Nat
  PID : Nat
deriving DecidableEq, Repr

/-- Well-formedness of a header: each field fits its Go integer type. -/
def Header.wf (h : Header) : Prop :=
  h.Length < 4294967296 ∧ h.Type' < 65536 ∧ h.Flags < 65536 ∧
  h.Sequence < 4294967296 ∧ h.PID < 4294967296

instance (h : Header) : Decidable h.wf := by unfold Header.wf; infer_instance

/-- A netlink message: a header plus an arbitrary byte payload. -/
structure Message where
  Header : Header
  Data : List Nat
deriving DecidableEq, Repr

/-- Go's `copy(dst, src)` into a zeroed destination of length `n`: the first
`min n src.length` bytes come from `src`, the rest stay zero. -/
def goCopy (n : Nat) (src : List Nat) : List Nat :=
  src.take n ++ List.replicate (n - src.length) 0

/-- Message.MarshalBinary marshals a Message into a byte slice
(debug_linux.go lines 313-329). -/
def Message.MarshalBinary (m : Message) : Except NlError (List Nat) :=
  let ml := nlmsgAlign m.Header.Length
  if ml < nlmsgHeaderLen ∨ ml ≠ m.Header.Length then
    .error .incorrectMessageLength
  else
    .ok (PutUint32 m.Header.Length ++ PutUint16 m.Header.Type' ++
         PutUint16 m.Header.Flags ++ PutUint32 m.Header.Sequence ++
         PutUint32 m.Header.PID ++ goCopy (ml - nlmsgHeaderLen) m.Data)

/-- Message.UnmarshalBinary unmarshals a byte slice into a Message
(debug_linux.go lines 332-353).  The Go slicing expressions `b[0:4]`,
`b[4:6]`, ... are rendered by matching off the first 16 bytes. -/
def Message.UnmarshalBinary (b : List Nat) : Except NlError Message :=
  if b.length < nlmsgHeaderLen then .error .shortMessage
  else if b.length ≠ nlmsgAlign b.length then .error .unalignedMessage
  else
    match b with
    | b0 :: b1 :: b2 :: b3 :: b4 :: b5 :: b6 :: b7 ::
      b8 :: b9 :: b10 :: b11 :: b12 :: b13 :: b14 :: b15 :: rest =>
      let len := Uint32 [b0, b1, b2, b3]
      if len ≠ b.length then .error .shortMessage
      else
        .ok ⟨⟨len, Uint16 [b4, b5], Uint16 [b6, b7],
              Uint32 [b8, b9, b10, b11], Uint32 [b12, b13, b14, b15]⟩, rest⟩
    | _ => .error .shortMessage

/-- An Attribute is a netlink attribute: Length u16, Type u16, payload bytes.
The Go field `Type` is spelled `Type'` because `Type` is reserved in Lean. -/
structure Attribute where
  Length : Nat
  Type' : Nat
  Data : List Nat
deriving DecidableEq, Repr

/-- Attribute.IsNested reports whether the nested bit (bit 15) of the type
field is set (attribute.go lines 31-33). -/
def Attribute.IsNested (a : Attribute) : Bool := a.Type' &&& NLA_F_NESTED > 0

/-- Attribute.IsNetByteOrder reports whether the net-byte-order bit (bit 14)
of the type field is set (attribute.go lines 38-40). -/
def Attribute.IsNetByteOrder (a : Attribute) : Bool :=
  a.Type' &&& NLA_F_NET_BYTEORDER > 0

/-- Attribute.MarshalBinary marshals an Attribute into a byte slice
(attribute.go lines 52-64): reject Length < 4, then emit the 4-byte header
followed by the data copied into a zeroed buffer of `nlaAlign Length - 4`
bytes (so the padding bytes are zero). -/
def Attribute.MarshalBinary (a : Attribute) : Except NlError (List Nat) :=
  if a.Length < nlaHeaderLen then .error .invalidAttribute
  else
    .ok (PutUint16 a.Length ++ PutUint16 a.Type' ++
         goCopy (nlaAlign a.Length - nlaHeaderLen) a.Data)

/-- Attribute.UnmarshalBinary unmarshals the head of a byte slice into an
Attribute (attribute.go lines 67-93).  The Go slicing expressions `b[0:2]`,
`b[2:4]`, `b[4:Length]` are rendered by matching off the first 4 bytes. -/
def Attribute.UnmarshalBinary (b : List Nat) : Except NlError Attribute :=
  match b with
  | b0 :: b1 :: b2 :: b3 :: rest =>
    let len := Uint16 [b0, b1]
    let ty := Uint16 [b2, b3]
    if nlaAlign len > b.length then .error .invalidAttribute
    else if len = 0 then .ok ⟨len, ty, []⟩
    else if len < 4 then .error .invalidAttribute
    else .ok ⟨len, ty, rest.take (len - nlaHeaderLen)⟩
  | _ => .error .invalidAttribute

/-- MarshalAttributes packs a slice of Attributes into a single byte slice
(attribute.go lines 98-119).  A zero Length is recomputed as
`uint16(4 + len(Data))`; note the Go conversion truncates modulo 2^16. -/
def MarshalAttributes : List Attribute → Except NlError (List Nat)
  | [] => .ok []
  | a :: rest =>
    let a' := if a.Length = 0 then
        { a with Length := (nlaHeaderLen + a.Data.length) % 65536 }
      else a
    match a'.MarshalBinary with
    | .error e => .error e
    | .ok ab =>
      match MarshalAttributes rest with
      | .error e => .error e
      | .ok bs => .ok (ab ++ bs)

/-- UnmarshalAttributes unpacks a slice of Attributes from a byte slice
(attribute.go lines 122-146).  The Go loop over the offset `i` is rendered
as recursion on the remaining bytes: a zero-length attribute advances 4
bytes and is skipped; otherwise the cursor advances `nlaAlign Length` and
the attribute is kept. -/
def UnmarshalAttributes (b : List Nat) : Except NlError (List Attribute) :=
  if hb : b.length = 0 then .ok []
  else
    match Attribute.UnmarshalBinary b with
    | .error e => .error e
    | .ok a =>
      if hz : a.Length = 0 then UnmarshalAttributes (b.drop nlaHeaderLen)
      else
        match UnmarshalAttributes (b.drop (nlaAlign a.Length)) with
        | .error e => .error e
        | .ok rest => .ok (a :: rest)
termination_by b.length
decreasing_by
  · simp [nlaHeaderLen]; omega
  · have h4 : 4 ≤ nlaAlign a.Length := by
      unfold nlaAlign; omega
    simp [nlaAlign] at h4 ⊢
    omega

/-- A Conn models the connection state visible to `Send`: the atomic
sequence counter, the PID assigned by netlink, and (for the socket hand-off)
the list of messages passed to `osConn.Send` so far. -/
structure Conn where
  seq : Nat
  pid : Nat
  sent : List Message
deriving DecidableEq, Repr

/-- Conn.nextSequence atomically increments the sequence counter and returns
the incremented value (conn.go lines 248-250); `atomic.AddUint32` wraps
modulo 2^32. -/
def Conn.nextSequence (c : Conn) : Nat × Conn :=
  ((c.seq + 1) % 4294967296, { c with seq := (c.seq + 1) % 4294967296 })

/-- Conn.Send sends a single Message to netlink (conn.go lines 119-144):
reject messages whose total length exceeds 32768 bytes, then populate a zero
Length, Sequence and PID, hand the message to the socket, and return the
populated copy.  The socket's own send is modelled as always accepting (its
result does not depend on the message); the state component of the result
records the counter and the messages handed to the socket. -/
def Conn.Send (c : Conn) (m : Message) : Except NlError Message × Conn :=
  let ml := nlmsgLength m.Data.length
  if 1024 * 32 < ml then (.error .dataTooLarge, c)
  else
    let m1 := if m.Header.Length = 0 then
        { m with Header := { m.Header with Length := nlmsgAlign ml % 4294967296 } }
      else m
    let p := if m1.Header.Sequence = 0 then
        let sc := c.nextSequence
        ({ m1 with Header := { m1.Header with Sequence := sc.1 } }, sc.2)
      else (m1, c)
    let m2 := p.1
    let c1 := p.2
    let m3 := if m2.Header.PID = 0 then
        { m2 with Header := { m2.Header with PID := c1.pid } }
      else m2
    (.ok m3, { c1 with sent := c1.sent ++ [m3] })

/-- Validate validates reply Messages against a request Message
(conn.go lines 254-274): a sequence mismatch is ignored when the request
sequence is zero; a PID mismatch is ignored when either side's PID is
zero. -/
def Validate (request : Message) : List Message → Except NlError Unit
  | [] => .ok ()
  | m :: rest =>
    if m.Header.Sequence ≠ request.Header.Sequence ∧
       request.Header.Sequence ≠ 0 then
      .error .mismatchedSequence
    else if m.Header.PID ≠ request.Header.PID ∧
            request.Header.PID ≠ 0 ∧ m.Header.PID ≠ 0 then
      .error .mismatchedPID
    else Validate request rest

/-- Modelled from the spec: `checkMessage`, called per received message by
`Conn.receive` (conn.go line 184), is not among the provided sources.  Per
the spec's receive contract, an `error`-typed message with a non-zero
embedded 32-bit code yields that kernel error (a payload of fewer than 4
bytes cannot carry a code and is a short-error-message failure); a `done`
message of a multi-part dump with an embedded non-zero code does the same
(zero, or no embedded code, is normal termination); every other message
passes. -/
def checkMessage (m : Message) : Except NlError Unit :=
  if m.Header.Type' = HeaderTypeError then
    if m.Data.length < 4 then .error .shortErrorMessage
    else
      let c := getInt32 (m.Data.take 4)
      if c ≠ 0 then .error (.kernelError (-c)) else .ok ()
  else if m.Header.Type' = HeaderTypeDone ∧
          m.Header.Flags &&& HeaderFlagsMulti ≠ 0 then
    if m.Data.length < 4 then .ok ()
    else
      let c := getInt32 (m.Data.take 4)
      if c ≠ 0 then .error (.kernelError (-c)) else .ok ()
  else .ok ()

/-- checkMessages applies `checkMessage` to each message in order and stops
at the first error, as the loop in `Conn.receive` does. -/
def checkMessages : List Message → Except NlError Unit
  | [] => .ok ()
  | m :: rest =>
    match checkMessage m with
    | .error e => .error e
    | .ok _ => checkMessages rest

/-- multiFlag reports whether any message in one socket read is a multi-part
fragment that is not yet `done` (the `multi` computation of the loop in
`Conn.receive`, conn.go lines 178-187). -/
def multiFlag (msgs : List Message) : Bool :=
  msgs.any fun m =>
    decide (m.Header.Flags &&& HeaderFlagsMulti ≠ 0 ∧
            m.Header.Type' ≠ HeaderTypeDone)

/-- connReceiveAux is `Conn.receive` (conn.go lines 168-200) over a staged
socket: each call to `osConn.Receive` yields the next element of `reads`.
Reading past the staged stream blocks, modelled as `wouldBlock`. -/
def connReceiveAux : List (List Message) → Except NlError (List Message)
  | [] => .error .wouldBlock
  | msgs :: rest =>
    match checkMessages msgs with
    | .error e => .error e
    | .ok _ =>
      if multiFlag msgs then
        match connReceiveAux rest with
        | .error e => .error e
        | .ok more => .ok (msgs ++ more)
      else .ok msgs

/-- ConnReceive is `Conn.Receive` (conn.go lines 151-164) over a staged
socket.  The Go code indexes `msgs[len(msgs)-1]` unconditionally; on an
empty slice that is a runtime panic, modelled as `none`. -/
def ConnReceive (reads : List (List Message)) :
    Option (Except NlError (List Message)) :=
  match connReceiveAux reads with
  | .error e => some (.error e)
  | .ok msgs =>
    match msgs.getLast? with
    | none => none
    | some m =>
      if m.Header.Flags &&& HeaderFlagsMulti ≠ 0 ∧
         m.Header.Type' = HeaderTypeDone then
        some (.ok msgs.dropLast)
      else some (.ok msgs)

/-- receiveBCheck is the error-scanning loop of the second revision's
`Conn.Receive` (conn.go lines 420-437): only `error`-typed messages are
examined; a payload shorter than 4 bytes is a short-error-message failure;
a non-zero code `c` becomes the system error `newError(-c)`
(conn_linux.go lines 255-259, a raw errno). -/
def receiveBCheck : List Message → Except NlError Unit
  | [] => .ok ()
  | m :: rest =>
    if m.Header.Type' ≠ HeaderTypeError then receiveBCheck rest
    else if m.Data.length < 4 then .error .shortErrorMessage
    else
      let c := getInt32 (m.Data.take 4)
      if c ≠ 0 then .error (.kernelError (-c)) else receiveBCheck rest

/-- ReceiveB is the second revision's `Conn.Receive` (conn.go lines
414-440) applied to the messages yielded by one successful socket read. -/
def ReceiveB (msgs : List Message) : Except NlError (List Message) :=
  match receiveBCheck msgs with
  | .error e => .error e
  | .ok _ => .ok msgs

/-- IsNotExist (export file, lines 49-59): a raw errno error takes the
default branch and defers to the operating system's predicate.  Modelled
from the spec for the OS part: the standard is-not-exist predicate
recognizes a raw errno equal to ENOENT. -/
def IsNotExist : NlError → Bool
  | .kernelError e => e = ENOENT
  | _ => false

/-- Attribute.valid is the claim's notion of a valid attribute, amended with
the u16 bound: the length is either 0 (to be recomputed) or exactly
`4 + len(Data)`, the recomputed length fits the u16 length field, and the
type fits its u16 field. -/
def Attribute.valid (a : Attribute) : Prop :=
  (a.Length = 0 ∨ a.Length = nlaHeaderLen + a.Data.length) ∧
  nlaHeaderLen + a.Data.length < 65536 ∧ a.Type' < 65536

instance (a : Attribute) : Decidable a.valid := by
  unfold Attribute.valid; infer_instance

/-- Attribute.recompute is the encoder's length recomputation,
`4 + len(Data)`, applied to an attribute. -/
def Attribute.recompute (a : Attribute) : Attribute :=
  { a with Length := nlaHeaderLen + a.Data.length }

/-- encodeBlock is the wire image of one valid attribute: the recomputed
length and the type, then the data, then explicit zero padding to the next
4-byte boundary. -/
def encodeBlock (a : Attribute) : List Nat :=
  PutUint16 (nlaHeaderLen + a.Data.length) ++ PutUint16 a.Type' ++
  a.Data ++
  List.replicate (nlaAlign (nlaHeaderLen + a.Data.length) -
                  (nlaHeaderLen + a.Data.length)) 0

/-- encodeList concatenates the wire images of a list of attributes. -/
def encodeList : List Attribute → List Nat
  | [] => []
  | a :: rest => encodeBlock a ++ encodeList rest

/-- specInvalidCond is the decode-failure condition as the claim states it
(amended): walking the buffer, decoding fails exactly when the remaining
buffer is non-empty but shorter than the 4-byte attribute header, or the
current attribute's `align4(length)` exceeds the remaining buffer, or its
length field is non-zero and below 4; a zero-length header is skipped over
(4 bytes), any other attribute advances `align4(length)` bytes. -/
def specInvalidCond (b : List Nat) : Bool :=
  if b.length = 0 then false
  else if b.length < nlaHeaderLen then true
  else
    let len := Uint16 (b.take 2)
    if nlaAlign len > b.length then true
    else if hz : len = 0 then specInvalidCond (b.drop nlaHeaderLen)
    else if len < nlaHeaderLen then true
    else specInvalidCond (b.drop (nlaAlign len))
termination_by b.length
decreasing_by
  · simp [nlaHeaderLen]; omega
  · simp [nlaAlign] at *; omega

theorem Uint16_PutUint16 (v : Nat) (h : v < 65536) :
    Uint16 (PutUint16 v) = v := by
  simp [Uint16, PutUint16]
  omega

theorem Uint32_PutUint32 (v : Nat) (h : v < 4294967296) :
    Uint32 (PutUint32 v) = v := by
  simp [Uint32, PutUint32]
  omega

theorem nlmsgAlign_self (n : Nat) (h : n % 4 = 0) : nlmsgAlign n = n := by
  unfold nlmsgAlign
  omega

theorem le_nlaAlign (n : Nat) : n ≤ nlaAlign n := by
  unfold nlaAlign
  omega

theorem nlaAlign_lt (n : Nat) : nlaAlign n < n + 4 := by
  unfold nlaAlign
  omega

/-- C1: a Message whose header Length is `align4(16 + len(Data))` and whose
payload length is a multiple of 4 survives marshal followed by unmarshal
unchanged: the header fields and the payload bytes are all recovered
exactly. -/
theorem message_marshal_unmarshal_roundtrip (m : Message) (hwf : m.Header.wf)
    (hlen : m.Header.Length = nlmsgAlign (nlmsgLength m.Data.length))
    (hal : m.Data.length % 4 = 0) :
    ∃ bytes, m.MarshalBinary = .ok bytes ∧
      Message.UnmarshalBinary bytes = .ok m := by
  obtain ⟨hL, hT, hF, hS, hP⟩ := hwf
  have hlen' : m.Header.Length = m.Data.length + 16 := by
    rw [hlen]; unfold nlmsgAlign nlmsgLength nlmsgHeaderLen; omega
  have halign : nlmsgAlign m.Header.Length = m.Header.Length := by
    apply nlmsgAlign_self; omega
  refine ⟨m.Header.Length % 256 :: m.Header.Length / 256 % 256 ::
      m.Header.Length / 65536 % 256 :: m.Header.Length / 16777216 % 256 ::
      m.Header.Type' % 256 :: m.Header.Type' / 256 % 256 ::
      m.Header.Flags % 256 :: m.Header.Flags / 256 % 256 ::
      m.Header.Sequence % 256 :: m.Header.Sequence / 256 % 256 ::
      m.Header.Sequence / 65536 % 256 :: m.Header.Sequence / 16777216 % 256 ::
      m.Header.PID % 256 :: m.Header.PID / 256 % 256 ::
      m.Header.PID / 65536 % 256 :: m.Header.PID / 16777216 % 256 ::
      m.Data, ?_, ?_⟩
  · unfold Message.MarshalBinary
    rw [if_neg (by rw [halign]; unfold nlmsgHeaderLen; omega)]
    rw [halign]
    simp [PutUint32, PutUint16, goCopy, hlen', nlmsgHeaderLen]
  · have hblen : (m.Header.Length % 256 :: m.Header.Length / 256 % 256 ::
        m.Header.Length / 65536 % 256 :: m.Header.Length / 16777216 % 256 ::
        m.Header.Type' % 256 :: m.Header.Type' / 256 % 256 ::
        m.Header.Flags % 256 :: m.Header.Flags / 256 % 256 ::
        m.Header.Sequence % 256 :: m.Header.Sequence / 256 % 256 ::
        m.Header.Sequence / 65536 % 256 :: m.Header.Sequence / 16777216 % 256 ::
        m.Header.PID % 256 :: m.Header.PID / 256 % 256 ::
        m.Header.PID / 65536 % 256 :: m.Header.PID / 16777216 % 256 ::
        m.Data).length = m.Data.length + 16 := by
      simp
    unfold Message.UnmarshalBinary
    rw [if_neg (by rw [hblen]; unfold nlmsgHeaderLen; omega)]
    rw [if_neg (by
      rw [hblen]
      rw [nlmsgAlign_self _ (by omega)]
      omega)]
    simp only []
    rw [if_neg (by
      rw [hblen]
      have : Uint32 [m.Header.Length % 256, m.Header.Length / 256 % 256,
          m.Header.Length / 65536 % 256, m.Header.Length / 16777216 % 256] =
          m.Header.Length := by
        simpa [PutUint32] using Uint32_PutUint32 m.Header.Length hL
      rw [this]; omega)]
    have e1 : Uint32 [m.Header.Length % 256, m.Header.Length / 256 % 256,
        m.Header.Length / 65536 % 256, m.Header.Length / 16777216 % 256] =
        m.Header.Length := by
      simpa [PutUint32] using Uint32_PutUint32 m.Header.Length hL
    have e2 : Uint16 [m.Header.Type' % 256, m.Header.Type' / 256 % 256] =
        m.Header.Type' := by
      simpa [PutUint16] using Uint16_PutUint16 m.Header.Type' hT
    have e3 : Uint16 [m.Header.Flags % 256, m.Header.Flags / 256 % 256] =
        m.Header.Flags := by
      simpa [PutUint16] using Uint16_PutUint16 m.Header.Flags hF
    have e4 : Uint32 [m.Header.Sequence % 256, m.Header.Sequence / 256 % 256,
        m.Header.Sequence / 65536 % 256, m.Header.Sequence / 16777216 % 256] =
        m.Header.Sequence := by
      simpa [PutUint32] using Uint32_PutUint32 m.Header.Sequence hS
    have e5 : Uint32 [m.Header.PID % 256, m.Header.PID / 256 % 256,
        m.Header.PID / 65536 % 256, m.Header.PID / 16777216 % 256] =
        m.Header.PID := by
      simpa [PutUint32] using Uint32_PutUint32 m.Header.PID hP
    rw [e1, e2, e3, e4, e5]

/-- Witness for C1 at a concrete message. -/
theorem message_marshal_unmarshal_roundtrip_witness :
    ∃ bytes,
      Message.MarshalBinary ⟨⟨20, 2, 1, 1, 10⟩, [1, 2, 3, 4]⟩ = .ok bytes ∧
      Message.UnmarshalBinary bytes = .ok ⟨⟨20, 2, 1, 1, 10⟩, [1, 2, 3, 4]⟩ :=
  message_marshal_unmarshal_roundtrip ⟨⟨20, 2, 1, 1, 10⟩, [1, 2, 3, 4]⟩
    (by decide) (by decide) (by decide)

theorem encodeBlock_length (a : Attribute) :
    (encodeBlock a).length = nlaAlign (nlaHeaderLen + a.Data.length) := by
  have := le_nlaAlign (nlaHeaderLen + a.Data.length)
  simp [encodeBlock, PutUint16, nlaHeaderLen] at *
  omega

theorem encodeBlock_cons (a : Attribute) :
    encodeBlock a =
      (nlaHeaderLen + a.Data.length) % 256 ::
      (nlaHeaderLen + a.Data.length) / 256 % 256 ::
      a.Type' % 256 :: a.Type' / 256 % 256 ::
      (a.Data ++ List.replicate (nlaAlign (nlaHeaderLen + a.Data.length) -
        (nlaHeaderLen + a.Data.length)) 0) := by
  simp [encodeBlock, PutUint16]

theorem unmarshalAttributes_block (a : Attribute) (tail : List Nat)
    (h : a.valid) :
    UnmarshalAttributes (encodeBlock a ++ tail) =
      match UnmarshalAttributes tail with
      | .error e => .error e
      | .ok r => .ok (a.recompute :: r) := by
  obtain ⟨hlen, hbound, hty⟩ := h
  have hpad := le_nlaAlign (nlaHeaderLen + a.Data.length)
  have hblen := encodeBlock_length a
  have hL : Uint16 [(nlaHeaderLen + a.Data.length) % 256,
      (nlaHeaderLen + a.Data.length) / 256 % 256] =
      nlaHeaderLen + a.Data.length := by
    simpa [PutUint16] using Uint16_PutUint16 (nlaHeaderLen + a.Data.length) hbound
  have hT : Uint16 [a.Type' % 256, a.Type' / 256 % 256] = a.Type' := by
    simpa [PutUint16] using Uint16_PutUint16 a.Type' hty
  rw [encodeBlock_cons] at hblen ⊢
  simp only [List.cons_append, List.append_assoc] at hblen ⊢
  rw [UnmarshalAttributes]
  rw [dif_neg (by simp)]
  unfold Attribute.UnmarshalBinary
  simp only [hL, hT]
  rw [if_neg (by
    simp only [List.length_cons] at hblen ⊢
    simp only [List.length_append, List.length_replicate] at hblen ⊢
    omega)]
  rw [if_neg (by unfold nlaHeaderLen; omega)]
  rw [if_neg (by unfold nlaHeaderLen; omega)]
  simp only []
  have htake : (a.Data ++ (List.replicate (nlaAlign (nlaHeaderLen + a.Data.length) -
      (nlaHeaderLen + a.Data.length)) 0 ++ tail)).take
      (nlaHeaderLen + a.Data.length - nlaHeaderLen) = a.Data := by
    rw [Nat.add_sub_cancel_left]
    exact List.take_left' rfl
  rw [htake]
  rw [dif_neg (by unfold nlaHeaderLen; omega)]
  have hdrop : ((nlaHeaderLen + a.Data.length) % 256 ::
      (nlaHeaderLen + a.Data.length) / 256 % 256 ::
      a.Type' % 256 :: a.Type' / 256 % 256 ::
      (a.Data ++ (List.replicate (nlaAlign (nlaHeaderLen + a.Data.length) -
        (nlaHeaderLen + a.Data.length)) 0 ++ tail))).drop
      (nlaAlign (nlaHeaderLen + a.Data.length)) = tail := by
    have hform : ((nlaHeaderLen + a.Data.length) % 256 ::
        (nlaHeaderLen + a.Data.length) / 256 % 256 ::
        a.Type' % 256 :: a.Type' / 256 % 256 ::
        (a.Data ++ (List.replicate (nlaAlign (nlaHeaderLen + a.Data.length) -
          (nlaHeaderLen + a.Data.length)) 0 ++ tail))) =
        encodeBlock a ++ tail := by
      rw [encodeBlock_cons]
      simp [List.cons_append, List.append_assoc]
    rw [hform]
    exact List.drop_left' (encodeBlock_length a)
  rw [hdrop]
  rfl

theorem marshalBinary_recompute (a : Attribute) (h : a.valid) :
    Attribute.MarshalBinary a.recompute = .ok (encodeBlock a) := by
  obtain ⟨-, hbound, -⟩ := h
  have hle := le_nlaAlign (nlaHeaderLen + a.Data.length)
  unfold Attribute.MarshalBinary Attribute.recompute
  simp only []
  rw [if_neg (by simp [nlaHeaderLen])]
  have hgo : goCopy (nlaAlign (nlaHeaderLen + a.Data.length) - nlaHeaderLen)
      a.Data =
      a.Data ++ List.replicate (nlaAlign (nlaHeaderLen + a.Data.length) -
        (nlaHeaderLen + a.Data.length)) 0 := by
    unfold goCopy
    rw [List.take_of_length_le (by unfold nlaHeaderLen at hle ⊢; omega)]
    congr 2
    unfold nlaHeaderLen at hle ⊢
    omega
  rw [hgo]
  rfl

theorem marshalAttributes_encode (attrs : List Attribute)
    (h : ∀ a ∈ attrs, a.valid) :
    MarshalAttributes attrs = .ok (encodeList attrs) := by
  induction attrs with
  | nil => rfl
  | cons a rest ih =>
    obtain ⟨hlen, hbound, hty⟩ := h a (by simp)
    have hrest := ih fun x hx => h x (by simp [hx])
    unfold MarshalAttributes
    have ha' : (if a.Length = 0 then
        { a with Length := (nlaHeaderLen + a.Data.length) % 65536 }
      else a) = a.recompute := by
      unfold Attribute.recompute
      rcases hlen with h0 | he
      · rw [if_pos h0, Nat.mod_eq_of_lt hbound]
      · rw [if_neg (by unfold nlaHeaderLen at he; omega)]
        cases a
        simp at he ⊢
        omega
    rw [ha']
    dsimp only []
    rw [marshalBinary_recompute a ⟨hlen, hbound, hty⟩, hrest]
    dsimp only []
    rw [encodeList]

/-- C2 (amended): for a list of valid attributes whose recomputed lengths
fit the u16 length field, `MarshalAttributes` produces exactly the
concatenation of the attributes' wire blocks, in which every padding byte
is explicitly zero, and `UnmarshalAttributes` of that buffer returns the
same list of attributes with each Length recomputed as `4 + len(Data)`. -/
theorem attributes_roundtrip (attrs : List Attribute)
    (h : ∀ a ∈ attrs, a.valid) :
    MarshalAttributes attrs = .ok (encodeList attrs) ∧
    UnmarshalAttributes (encodeList attrs) =
      .ok (attrs.map Attribute.recompute) := by
  refine ⟨marshalAttributes_encode attrs h, ?_⟩
  induction attrs with
  | nil =>
    rw [encodeList]
    rw [UnmarshalAttributes]
    simp
  | cons a rest ih =>
    have hrest := ih fun x hx => h x (by simp [hx])
    rw [encodeList]
    rw [unmarshalAttributes_block a _ (h a (by simp))]
    rw [hrest]
    simp

theorem marshalAttributes_truncates (ty : Nat) (d : List Nat)
    (hd : (nlaHeaderLen + d.length) % 65536 = 4) :
    MarshalAttributes [⟨0, ty, d⟩] =
      .ok (PutUint16 4 ++ PutUint16 ty) := by
  unfold MarshalAttributes
  dsimp only []
  rw [if_pos rfl]
  have ha : ((⟨(nlaHeaderLen + d.length) % 65536, ty, d⟩ : Attribute) =
      ⟨4, ty, d⟩) := by
    rw [hd]
  rw [ha]
  unfold Attribute.MarshalBinary
  dsimp only []
  rw [if_neg (by unfold nlaHeaderLen; omega)]
  unfold MarshalAttributes
  dsimp only []
  have hgo : goCopy (nlaAlign 4 - nlaHeaderLen) d = [] := by
    unfold goCopy nlaAlign nlaHeaderLen
    norm_num
  rw [hgo]
  rw [List.append_nil, List.append_nil]

/-- Counterexample for C2 as literally stated: an attribute with Length 0
and 65536 data bytes satisfies the claim's validity condition, yet the Go
`uint16` conversion truncates the recomputed length `4 + 65536` to 4, so
the marshaled buffer is a bare 4-byte header and decoding it yields an
attribute with empty data rather than the original. -/
theorem attributes_roundtrip_counterexample :
    MarshalAttributes [⟨0, 1, List.replicate 65536 0⟩] = .ok [4, 0, 1, 0] ∧
    UnmarshalAttributes [4, 0, 1, 0] = .ok [⟨4, 1, []⟩] ∧
    (⟨4, 1, []⟩ : Attribute) ≠
      Attribute.recompute ⟨0, 1, List.replicate 65536 0⟩ := by
  refine ⟨?_, ?_, ?_⟩
  · rw [marshalAttributes_truncates 1 (List.replicate 65536 0)
      (by rw [List.length_replicate]; rfl)]
    rfl
  · rw [UnmarshalAttributes]
    norm_num [Attribute.UnmarshalBinary, Uint16, nlaAlign, nlaHeaderLen]
    rw [UnmarshalAttributes]
    norm_num
  · intro hcontra
    have hdata := congrArg Attribute.Data hcontra
    unfold Attribute.recompute at hdata
    dsimp only [] at hdata
    have hlen := congrArg List.length hdata
    rw [List.length_replicate] at hlen
    simp at hlen

/-- Witness for C2 at a concrete attribute list (one length-0 attribute to
be recomputed, one with an explicit length). -/
theorem attributes_roundtrip_witness :
    MarshalAttributes [⟨0, 1, [255]⟩, ⟨8, 2, [170, 187, 204, 221]⟩] =
      .ok (encodeList [⟨0, 1, [255]⟩, ⟨8, 2, [170, 187, 204, 221]⟩]) ∧
    UnmarshalAttributes
        (encodeList [⟨0, 1, [255]⟩, ⟨8, 2, [170, 187, 204, 221]⟩]) =
      .ok ([⟨0, 1, [255]⟩, ⟨8, 2, [170, 187, 204, 221]⟩].map
        Attribute.recompute) :=
  attributes_roundtrip [⟨0, 1, [255]⟩, ⟨8, 2, [170, 187, 204, 221]⟩]
    (by decide)

theorem unmarshal_error_aux : ∀ n (b : List Nat), b.length ≤ n →
    ((UnmarshalAttributes b = .error .invalidAttribute ↔
      specInvalidCond b = true) ∧
     (∀ e, UnmarshalAttributes b = .error e → e = .invalidAttribute) ∧
     (∀ attrs, UnmarshalAttributes b = .ok attrs →
       ∀ a ∈ attrs, nlaHeaderLen ≤ a.Length)) := by
  intro n
  induction n with
  | zero =>
    intro b hb
    have hnil : b = [] := List.length_eq_zero.mp (Nat.le_zero.mp hb)
    subst hnil
    rw [UnmarshalAttributes, specInvalidCond]
    simp
  | succ n ih =>
    intro b hb
    by_cases h0 : b.length = 0
    · have hnil : b = [] := List.length_eq_zero.mp h0
      subst hnil
      rw [UnmarshalAttributes, specInvalidCond]
      simp
    · match b, h0 with
      | b0 :: b1 :: b2 :: b3 :: rest, h0 =>
        rw [UnmarshalAttributes, dif_neg h0, specInvalidCond, if_neg h0,
          if_neg (by simp [nlaHeaderLen])]
        unfold Attribute.UnmarshalBinary
        dsimp only []
        have htk : (b0 :: b1 :: b2 :: b3 :: rest).take 2 = [b0, b1] := rfl
        rw [htk]
        by_cases hc1 : nlaAlign (Uint16 [b0, b1]) >
            (b0 :: b1 :: b2 :: b3 :: rest).length
        · rw [if_pos hc1, if_pos hc1]
          simp
        · rw [if_neg hc1, if_neg hc1]
          by_cases hz : Uint16 [b0, b1] = 0
          · rw [if_pos hz]
            dsimp only []
            simp only [dif_pos hz]
            exact ih ((b0 :: b1 :: b2 :: b3 :: rest).drop nlaHeaderLen)
              (by simp [nlaHeaderLen] at hb ⊢; omega)
          · rw [dif_neg hz, if_neg hz]
            by_cases hlt : Uint16 [b0, b1] < 4
            · rw [if_pos hlt, if_pos (by unfold nlaHeaderLen; omega)]
              simp
            · rw [if_neg hlt, if_neg (by unfold nlaHeaderLen; omega)]
              dsimp only []
              rw [dif_neg hz]
              have hdroplen : ((b0 :: b1 :: b2 :: b3 :: rest).drop
                  (nlaAlign (Uint16 [b0, b1]))).length ≤ n := by
                have h4 : 4 ≤ nlaAlign (Uint16 [b0, b1]) := by
                  unfold nlaAlign; omega
                simp at hb ⊢
                omega
              obtain ⟨ih1, ih2, ih3⟩ := ih _ hdroplen
              constructor
              · constructor
                · intro hE
                  rcases hr : UnmarshalAttributes
                      ((b0 :: b1 :: b2 :: b3 :: rest).drop
                        (nlaAlign (Uint16 [b0, b1]))) with e | r
                  · have := ih2 e hr
                    subst this
                    exact ih1.mp hr
                  · rw [hr] at hE
                    simp at hE
                · intro hC
                  have hr := ih1.mpr hC
                  rw [hr]
              constructor
              · intro e hE
                rcases hr : UnmarshalAttributes
                    ((b0 :: b1 :: b2 :: b3 :: rest).drop
                      (nlaAlign (Uint16 [b0, b1]))) with e' | r
                · rw [hr] at hE
                  simp at hE
                  rw [← hE]
                  exact ih2 e' hr
                · rw [hr] at hE
                  simp at hE
              · intro attrs hA
                rcases hr : UnmarshalAttributes
                    ((b0 :: b1 :: b2 :: b3 :: rest).drop
                      (nlaAlign (Uint16 [b0, b1]))) with e' | r
                · rw [hr] at hA
                  simp at hA
                · rw [hr] at hA
                  simp at hA
                  subst hA
                  intro a ha
                  rcases List.mem_cons.mp ha with ha | ha
                  · rw [ha]
                    dsimp only []
                    unfold nlaHeaderLen
                    omega
                  · exact ih3 r hr a ha
      | [b0], h0 =>
        rw [UnmarshalAttributes, dif_neg h0, specInvalidCond, if_neg h0,
          if_pos (by simp [nlaHeaderLen])]
        unfold Attribute.UnmarshalBinary
        simp
      | [b0, b1], h0 =>
        rw [UnmarshalAttributes, dif_neg h0, specInvalidCond, if_neg h0,
          if_pos (by simp [nlaHeaderLen])]
        unfold Attribute.UnmarshalBinary
        simp
      | [b0, b1, b2], h0 =>
        rw [UnmarshalAttributes, dif_neg h0, specInvalidCond, if_neg h0,
          if_pos (by simp [nlaHeaderLen])]
        unfold Attribute.UnmarshalBinary
        simp

/-- C8 (amended): attribute decoding fails with the invalid-attribute error
exactly when, walking the buffer, the remaining buffer is non-empty but
shorter than the 4-byte attribute header, or an attribute's `align4(length)`
exceeds the remaining buffer, or an attribute's length field is non-zero
and below 4 (a zero length is skipped, not an error); and every attribute
returned by a successful decode has length at least 4. -/
theorem attribute_decode_error_characterization (b : List Nat) :
    (UnmarshalAttributes b = .error .invalidAttribute ↔
      specInvalidCond b = true) ∧
    ∀ attrs, UnmarshalAttributes b = .ok attrs →
      ∀ a ∈ attrs, nlaHeaderLen ≤ a.Length := by
  obtain ⟨h1, -, h3⟩ := unmarshal_error_aux b.length b le_rfl
  exact ⟨h1, h3⟩

/-- Witness for C8 at a concrete buffer: a single attribute header whose
length 5 aligns to 8, exceeding the 4 remaining bytes, is rejected. -/
theorem attribute_decode_error_characterization_witness :
    UnmarshalAttributes [5, 0, 0, 0] = .error .invalidAttribute :=
  (attribute_decode_error_characterization [5, 0, 0, 0]).1.mpr (by
    rw [specInvalidCond]
    norm_num [Uint16, nlaAlign, nlaHeaderLen])

/-- Counterexample for C8 as literally stated: the buffer `00 00 00 00`
holds an attribute whose length field 0 is below 4, yet decoding succeeds
(the zero-length attribute is skipped), so "length below 4" alone does not
force a decode failure. -/
theorem attribute_decode_zero_length_counterexample :
    UnmarshalAttributes [0, 0, 0, 0] = .ok [] ∧ Uint16 [0, 0] < 4 := by
  constructor
  · rw [UnmarshalAttributes]
    norm_num [Attribute.UnmarshalBinary, Uint16, nlaAlign, nlaHeaderLen]
    rw [UnmarshalAttributes]
    norm_num
  · decide

/-- C9 (amended): marshaling an attribute whose type has both the nested
bit (bit 15) and the net-byte-order bit (bit 14) set succeeds whenever its
Length is at least 4; the illegal flag combination is not rejected, and the
type field is emitted unchanged. -/
theorem marshal_nested_netbyteorder_succeeds (a : Attribute)
    (hn : a.IsNested = true) (hb : a.IsNetByteOrder = true)
    (hl : nlaHeaderLen ≤ a.Length) :
    Attribute.MarshalBinary a =
      .ok (PutUint16 a.Length ++ PutUint16 a.Type' ++
        goCopy (nlaAlign a.Length - nlaHeaderLen) a.Data) := by
  unfold Attribute.MarshalBinary
  rw [if_neg (by omega)]

/-- Witness for C9 at a concrete attribute with both flag bits set. -/
theorem marshal_nested_netbyteorder_succeeds_witness :
    Attribute.MarshalBinary ⟨8, 49154, [9, 9, 9, 9]⟩ =
      .ok (PutUint16 8 ++ PutUint16 49154 ++
        goCopy (nlaAlign 8 - nlaHeaderLen) [9, 9, 9, 9]) :=
  marshal_nested_netbyteorder_succeeds ⟨8, 49154, [9, 9, 9, 9]⟩
    (by decide) (by decide) (by decide)

/-- Counterexample for C9 as stated: the attribute with Length 4, type
0xC001 (both flag bits set), and no data marshals successfully to the bytes
`04 00 01 C0` rather than failing with an error. -/
theorem marshal_nested_netbyteorder_counterexample :
    Attribute.IsNested ⟨4, 49153, []⟩ = true ∧
    Attribute.IsNetByteOrder ⟨4, 49153, []⟩ = true ∧
    Attribute.MarshalBinary ⟨4, 49153, []⟩ = .ok [4, 0, 1, 192] := by
  decide

/-- C4: on success, `Conn.Send` returns a copy of the message in which a
zero Length has been set to `align4(16 + len(Data))`, a zero Sequence to
the next value of the connection's sequence counter, and a zero PID to the
connection's assigned PID; every field that was non-zero on entry, and the
payload, are unchanged; the populated copy is what is handed to the
socket. -/
theorem send_populates_fields (c : Conn) (m : Message)
    (hsz : nlmsgLength m.Data.length ≤ 1024 * 32) :
    ∃ m', (Conn.Send c m).1 = .ok m' ∧
      m'.Data = m.Data ∧
      m'.Header.Type' = m.Header.Type' ∧
      m'.Header.Flags = m.Header.Flags ∧
      (m.Header.Length = 0 →
        m'.Header.Length = nlmsgAlign (nlmsgLength m.Data.length)) ∧
      (m.Header.Length ≠ 0 → m'.Header.Length = m.Header.Length) ∧
      (m.Header.Sequence = 0 →
        m'.Header.Sequence = (c.seq + 1) % 4294967296 ∧
        (Conn.Send c m).2.seq = (c.seq + 1) % 4294967296) ∧
      (m.Header.Sequence ≠ 0 → m'.Header.Sequence = m.Header.Sequence ∧
        (Conn.Send c m).2.seq = c.seq) ∧
      (m.Header.PID = 0 → m'.Header.PID = c.pid) ∧
      (m.Header.PID ≠ 0 → m'.Header.PID = m.Header.PID) ∧
      (Conn.Send c m).2.sent = c.sent ++ [m'] := by
  have hml : nlmsgAlign (nlmsgLength m.Data.length) < 4294967296 := by
    unfold nlmsgAlign nlmsgLength nlmsgHeaderLen at *
    omega
  unfold Conn.Send Conn.nextSequence
  dsimp only []
  rw [if_neg (by omega)]
  by_cases h1 : m.Header.Length = 0 <;>
    by_cases h2 : m.Header.Sequence = 0 <;>
      by_cases h3 : m.Header.PID = 0 <;>
        simp [h1, h2, h3, Nat.mod_eq_of_lt hml]

/-- Witness for C4 at a concrete connection and all-zero header. -/
theorem send_populates_fields_witness :
    ∃ m', (Conn.Send ⟨100, 99, []⟩ ⟨⟨0, 16, 1, 0, 0⟩, [1, 2, 3, 4]⟩).1 =
        .ok m' ∧
      m'.Data = [1, 2, 3, 4] ∧
      m'.Header.Type' = 16 ∧
      m'.Header.Flags = 1 ∧
      ((0 : Nat) = 0 → m'.Header.Length = nlmsgAlign (nlmsgLength 4)) ∧
      ((0 : Nat) ≠ 0 → m'.Header.Length = 0) ∧
      ((0 : Nat) = 0 → m'.Header.Sequence = (100 + 1) % 4294967296 ∧
        (Conn.Send ⟨100, 99, []⟩ ⟨⟨0, 16, 1, 0, 0⟩, [1, 2, 3, 4]⟩).2.seq =
          (100 + 1) % 4294967296) ∧
      ((0 : Nat) ≠ 0 → m'.Header.Sequence = 0 ∧
        (Conn.Send ⟨100, 99, []⟩ ⟨⟨0, 16, 1, 0, 0⟩, [1, 2, 3, 4]⟩).2.seq =
          100) ∧
      ((0 : Nat) = 0 → m'.Header.PID = 99) ∧
      ((0 : Nat) ≠ 0 → m'.Header.PID = 0) ∧
      (Conn.Send ⟨100, 99, []⟩ ⟨⟨0, 16, 1, 0, 0⟩, [1, 2, 3, 4]⟩).2.sent =
        [] ++ [m'] :=
  send_populates_fields ⟨100, 99, []⟩ ⟨⟨0, 16, 1, 0, 0⟩, [1, 2, 3, 4]⟩
    (by decide)

/-- C10: a message whose total length `16 + len(Data)` exceeds 32768 bytes
makes `Conn.Send` return the data-too-large error with the connection state
unchanged: the sequence counter is not advanced and nothing is handed to
the socket. -/
theorem send_rejects_oversized (c : Conn) (m : Message)
    (h : 1024 * 32 < nlmsgLength m.Data.length) :
    Conn.Send c m = (.error .dataTooLarge, c) := by
  unfold Conn.Send
  dsimp only []
  rw [if_pos h]

/-- Witness for C10 at a 32753-byte payload (total length 32769). -/
theorem send_rejects_oversized_witness :
    Conn.Send ⟨7, 8, []⟩ ⟨⟨0, 0, 0, 0, 0⟩, List.replicate 32753 0⟩ =
      (.error .dataTooLarge, ⟨7, 8, []⟩) :=
  send_rejects_oversized ⟨7, 8, []⟩ ⟨⟨0, 0, 0, 0, 0⟩, List.replicate 32753 0⟩
    (by
      rw [List.length_replicate]
      decide)

/-- C5: `Validate` passes when every reply's sequence and PID match the
request; a single reply with a mismatched sequence against a non-zero
request sequence yields the sequence-mismatch error; a reply with a
mismatched PID (both PIDs non-zero, sequence check passing) yields the
PID-mismatch error; a zero request sequence disables the sequence check;
and a zero PID on the request side or on a reply disables the PID check for
that reply. -/
theorem validate_checks (request : Message) :
    (∀ replies : List Message, (∀ m ∈ replies,
        m.Header.Sequence = request.Header.Sequence ∧
        m.Header.PID = request.Header.PID) →
      Validate request replies = .ok ()) ∧
    (∀ m : Message, m.Header.Sequence ≠ request.Header.Sequence →
      request.Header.Sequence ≠ 0 →
      Validate request [m] = .error .mismatchedSequence) ∧
    (∀ m : Message, (m.Header.Sequence = request.Header.Sequence ∨
        request.Header.Sequence = 0) →
      m.Header.PID ≠ request.Header.PID → request.Header.PID ≠ 0 →
      m.Header.PID ≠ 0 →
      Validate request [m] = .error .mismatchedPID) ∧
    (request.Header.Sequence = 0 → ∀ replies : List Message,
      Validate request replies ≠ .error .mismatchedSequence) ∧
    (∀ replies : List Message, (∀ m ∈ replies,
        request.Header.PID = 0 ∨ m.Header.PID = 0) →
      Validate request replies ≠ .error .mismatchedPID) := by
  refine ⟨?_, ?_, ?_, ?_, ?_⟩
  · intro replies h
    induction replies with
    | nil => rfl
    | cons m rest ih =>
      obtain ⟨hs, hp⟩ := h m (by simp)
      unfold Validate
      rw [if_neg (by simp [hs]), if_neg (by simp [hp])]
      exact ih fun x hx => h x (by simp [hx])
  · intro m h1 h2
    unfold Validate
    rw [if_pos ⟨h1, h2⟩]
  · intro m hd h1 h2 h3
    unfold Validate
    rw [if_neg (by
      rcases hd with hd | hd
      · simp [hd]
      · simp [hd])]
    rw [if_pos ⟨h1, h2, h3⟩]
  · intro h0 replies
    induction replies with
    | nil => simp [Validate]
    | cons m rest ih =>
      unfold Validate
      rw [if_neg (by simp [h0])]
      split
      · simp
      · exact ih
  · intro replies h
    induction replies with
    | nil => simp [Validate]
    | cons m rest ih =>
      unfold Validate
      rw [if_neg (show ¬(m.Header.PID ≠ request.Header.PID ∧
          request.Header.PID ≠ 0 ∧ m.Header.PID ≠ 0) from by
        rcases h m (by simp) with h' | h'
        · simp [h']
        · simp [h'])]
      split
      · simp
      · exact ih fun x hx => h x (by simp [hx])

/-- Witness for C5 at concrete request and replies. -/
theorem validate_checks_witness :
    Validate ⟨⟨20, 16, 1, 5, 9⟩, []⟩ [⟨⟨20, 16, 1, 5, 9⟩, []⟩] = .ok () ∧
    Validate ⟨⟨20, 16, 1, 5, 9⟩, []⟩ [⟨⟨20, 16, 1, 6, 9⟩, []⟩] =
      .error .mismatchedSequence ∧
    Validate ⟨⟨20, 16, 1, 5, 9⟩, []⟩ [⟨⟨20, 16, 1, 5, 8⟩, []⟩] =
      .error .mismatchedPID ∧
    Validate ⟨⟨20, 16, 1, 0, 9⟩, []⟩ [⟨⟨20, 16, 1, 6, 9⟩, []⟩] ≠
      .error .mismatchedSequence ∧
    Validate ⟨⟨20, 16, 1, 5, 9⟩, []⟩ [⟨⟨20, 16, 1, 5, 0⟩, []⟩] ≠
      .error .mismatchedPID :=
  ⟨(validate_checks ⟨⟨20, 16, 1, 5, 9⟩, []⟩).1 _ (by decide),
   (validate_checks ⟨⟨20, 16, 1, 5, 9⟩, []⟩).2.1 _ (by decide) (by decide),
   (validate_checks ⟨⟨20, 16, 1, 5, 9⟩, []⟩).2.2.1 _ (by decide) (by decide)
     (by decide) (by decide),
   (validate_checks ⟨⟨20, 16, 1, 0, 9⟩, []⟩).2.2.2.1 (by decide) _,
   (validate_checks ⟨⟨20, 16, 1, 5, 9⟩, []⟩).2.2.2.2 _ (by decide)⟩

/-- C3: with a staged socket that first yields three multi-part fragments
(multi flag set, type not done, no kernel error) and then one multi+done
message (no embedded error), `Conn.Receive` returns exactly the three
fragments in arrival order with the trailing done message stripped. -/
theorem receive_multipart_reassembly (m1 m2 m3 m4 : Message)
    (h1 : ∀ m ∈ [m1, m2, m3],
      m.Header.Flags &&& HeaderFlagsMulti ≠ 0 ∧
      m.Header.Type' ≠ HeaderTypeDone ∧ checkMessage m = .ok ())
    (h4 : m4.Header.Flags &&& HeaderFlagsMulti ≠ 0 ∧
      m4.Header.Type' = HeaderTypeDone ∧ checkMessage m4 = .ok ()) :
    ConnReceive [[m1, m2, m3], [m4]] = some (.ok [m1, m2, m3]) := by
  obtain ⟨hf1, ht1, hc1⟩ := h1 m1 (by simp)
  obtain ⟨hf2, ht2, hc2⟩ := h1 m2 (by simp)
  obtain ⟨hf3, ht3, hc3⟩ := h1 m3 (by simp)
  obtain ⟨hf4, ht4, hc4⟩ := h4
  have hck : checkMessages [m1, m2, m3] = .ok () := by
    simp [checkMessages, hc1, hc2, hc3]
  have hck4 : checkMessages [m4] = .ok () := by
    simp [checkMessages, hc4]
  have hmf : multiFlag [m1, m2, m3] = true := by
    simp [multiFlag]
    exact Or.inl ⟨hf1, ht1⟩
  have hmf4 : multiFlag [m4] = false := by
    simp [multiFlag, ht4]
  have haux : connReceiveAux [[m1, m2, m3], [m4]] = .ok [m1, m2, m3, m4] := by
    rw [connReceiveAux, hck]
    dsimp only []
    rw [if_pos hmf]
    rw [connReceiveAux, hck4]
    dsimp only []
    rw [if_neg (by rw [hmf4]; simp)]
    rfl
  unfold ConnReceive
  rw [haux]
  dsimp only []
  have hlast : [m1, m2, m3, m4].getLast? = some m4 := rfl
  rw [hlast]
  dsimp only []
  rw [if_pos ⟨hf4, ht4⟩]
  rfl

/-- Witness for C3 at four concrete messages. -/
theorem receive_multipart_reassembly_witness :
    ConnReceive [[⟨⟨16, 16, 2, 1, 1⟩, []⟩, ⟨⟨16, 16, 2, 1, 1⟩, [7]⟩,
        ⟨⟨16, 16, 2, 1, 1⟩, [8]⟩], [⟨⟨16, 3, 2, 1, 1⟩, []⟩]] =
      some (.ok [⟨⟨16, 16, 2, 1, 1⟩, []⟩, ⟨⟨16, 16, 2, 1, 1⟩, [7]⟩,
        ⟨⟨16, 16, 2, 1, 1⟩, [8]⟩]) :=
  receive_multipart_reassembly ⟨⟨16, 16, 2, 1, 1⟩, []⟩
    ⟨⟨16, 16, 2, 1, 1⟩, [7]⟩ ⟨⟨16, 16, 2, 1, 1⟩, [8]⟩ ⟨⟨16, 3, 2, 1, 1⟩, []⟩
    (by decide) (by decide)

/-- C7 (the spec's behavior, which the code does not implement): when the
socket read succeeds with zero messages, the internal `receive` returns the
empty list successfully, but `Conn.Receive` then indexes the last element
of the empty slice — a runtime panic, modelled as `none` — instead of
returning the empty list. -/
theorem receive_empty_read_panics :
    connReceiveAux [[]] = .ok [] ∧ ConnReceive [[]] = none := by
  decide

/-- C6: a reply whose type is error and whose payload begins with the
little-endian 32-bit value -2 makes `Receive` return the kernel error with
errno ENOENT and no messages, and the library's is-not-exist predicate
matches that error. -/
theorem receive_error_reply_enoent (pre post : List Message) (m : Message)
    (hpre : ∀ p ∈ pre, p.Header.Type' ≠ HeaderTypeError)
    (hm : m.Header.Type' = HeaderTypeError)
    (hdata : m.Data.take 4 = [254, 255, 255, 255]) :
    ReceiveB (pre ++ m :: post) = .error (.kernelError ENOENT) ∧
    IsNotExist (.kernelError ENOENT) = true := by
  refine ⟨?_, by decide⟩
  have hlen : ¬ m.Data.length < 4 := by
    have := congrArg List.length hdata
    simp [List.length_take] at this
    omega
  have hchk : receiveBCheck (pre ++ m :: post) =
      .error (.kernelError ENOENT) := by
    induction pre with
    | nil =>
      simp only [List.nil_append]
      rw [receiveBCheck]
      rw [if_neg (by simp [hm]), if_neg hlen, hdata]
      norm_num [getInt32, Uint32, ENOENT]
    | cons p ps ih =>
      rw [List.cons_append, receiveBCheck]
      rw [if_pos (hpre p (by simp))]
      exact ih fun q hq => hpre q (by simp [hq])
  unfold ReceiveB
  rw [hchk]

/-- Witness for C6 at a concrete error reply carrying -2. -/
theorem receive_error_reply_enoent_witness :
    ReceiveB [⟨⟨20, 2, 0, 1, 1⟩, [254, 255, 255, 255]⟩] =
      .error (.kernelError ENOENT) ∧
    IsNotExist (.kernelError ENOENT) = true :=
  receive_error_reply_enoent [] [] ⟨⟨20, 2, 0, 1, 1⟩, [254, 255, 255, 255]⟩
    (by simp) (by decide) (by decide)

end Netlink
